import Mathlib

/-!
Shallow embedding of the `blockchain-interact` repository core:

* `src/contracts/SimpleStorage.sol` — the Ledger: an append-only array of
  `BlockData` records, a `blockCount` counter, three append entry points
  (`saveName`, `saveNameAndSum`, `saveSum`), a point lookup (`getBlock`),
  and a `BlockCreated` event emitted on each append.
* `src/pages/blocks/index.js` (`loadBlocks`) together with
  `formatBlock` from the contract-utils module — the Reconciling Indexer:
  it reads `blockCount()`, iterates ids from `count-1` down to `0`,
  fetches each record, correlates it with a `BlockCreated` event by id,
  enriches it with the transaction receipt's block number and that
  block's timestamp, and publishes the resulting list.

Solidity `uint256` values are modelled as `Nat` with explicit `< 2 ^ 256`
checks where the compiler's checked arithmetic (Solidity >= 0.8) can
revert.  A reverting call is `none`; JavaScript exceptions caught by the
indexer's per-item `try`/`catch` are also `none` at the item level.
-/

/-- Solidity uint256 modulus: arithmetic on `uint256` reverts (checked
arithmetic, Solidity >= 0.8) when a result would reach this bound. -/
def UINT256_MOD : Nat := 2 ^ 256

/-- One stored record, mirroring `struct BlockData` in
`src/contracts/SimpleStorage.sol`: `uint256 id; string name; uint256 sum;
address creator`.  Addresses are opaque identities, modelled as `Nat`. -/
structure BlockData where
  id : Nat
  name : String
  sum : Nat
  creator : Nat
deriving Repr, DecidableEq

/-- Contract storage of `SimpleStorage` plus its emitted event log:
`blocks` mirrors `BlockData[] public blocks`, `blockCount` mirrors
`uint256 public blockCount`, and `events` is the append-ordered log of
`BlockCreated(id, name, sum, creator)` emissions (the event carries the
same four fields as the pushed record, so an event is a `BlockData`). -/
structure Storage where
  blocks : List BlockData
  blockCount : Nat
  events : List BlockData
deriving Repr, DecidableEq

/-- The freshly deployed contract: empty array, `blockCount = 0`,
no events emitted yet. -/
def Storage.empty : Storage := ⟨[], 0, []⟩

/-- Solidity `saveName(string name)`: pushes `BlockData(blockCount, name, 0,
msg.sender)`, emits `BlockCreated(blockCount, name, 0, msg.sender)`, then
`blockCount++`.  The increment is checked arithmetic: the whole call
reverts (`none`) if `blockCount + 1` would reach `2 ^ 256`. -/
def saveName (s : Storage) (sender : Nat) (name : String) : Option Storage :=
  if s.blockCount + 1 < UINT256_MOD then
    some { blocks := s.blocks ++ [⟨s.blockCount, name, 0, sender⟩]
           blockCount := s.blockCount + 1
           events := s.events ++ [⟨s.blockCount, name, 0, sender⟩] }
  else none

/-- Solidity `saveNameAndSum(string name, uint256 sum)`: pushes
`BlockData(blockCount, name, sum, msg.sender)`, emits the matching
`BlockCreated`, then `blockCount++` (checked). -/
def saveNameAndSum (s : Storage) (sender : Nat) (name : String) (sum : Nat) :
    Option Storage :=
  if s.blockCount + 1 < UINT256_MOD then
    some { blocks := s.blocks ++ [⟨s.blockCount, name, sum, sender⟩]
           blockCount := s.blockCount + 1
           events := s.events ++ [⟨s.blockCount, name, sum, sender⟩] }
  else none

/-- Solidity `saveSum(uint256 num1, uint256 num2)`: computes `sum = num1 + num2`
with checked arithmetic (reverts when `num1 + num2 >= 2 ^ 256`), pushes
`BlockData(blockCount, "", sum, msg.sender)`, emits the matching
`BlockCreated`, then `blockCount++` (checked). -/
def saveSum (s : Storage) (sender : Nat) (num1 num2 : Nat) : Option Storage :=
  if num1 + num2 < UINT256_MOD then
    if s.blockCount + 1 < UINT256_MOD then
      some { blocks := s.blocks ++ [⟨s.blockCount, "", num1 + num2, sender⟩]
             blockCount := s.blockCount + 1
             events := s.events ++ [⟨s.blockCount, "", num1 + num2, sender⟩] }
    else none
  else none

/-- Solidity `getBlock(uint256 id)`: `require(id < blockCount, "Invalid block ID");
return blocks[id];`.  A failed `require` or an out-of-bounds array read
reverts (`none`). -/
def getBlock (s : Storage) (id : Nat) : Option BlockData :=
  if id < s.blockCount then s.blocks[id]? else none

/-- One external call to a mutating entry point of `SimpleStorage`,
tagged with `msg.sender`.  `uint256` calldata arguments of
`saveNameAndSum` and `saveSum` are well-formed only below `2 ^ 256`. -/
inductive Op where
  | callSaveName (sender : Nat) (name : String)
  | callSaveNameAndSum (sender : Nat) (name : String) (sum : Nat)
  | callSaveSum (sender : Nat) (num1 num2 : Nat)
deriving Repr, DecidableEq

/-- Dispatch one call against the contract state.  A `none` result means
the call could not succeed: the body reverted, or (for `uint256`
arguments) the calldata is not representable as `uint256`. -/
def applyOp (s : Storage) : Op → Option Storage
  | .callSaveName sender name => saveName s sender name
  | .callSaveNameAndSum sender name sum =>
      if sum < UINT256_MOD then saveNameAndSum s sender name sum else none
  | .callSaveSum sender num1 num2 => saveSum s sender num1 num2

/-- A transaction against the EVM: a reverted call leaves the state
unchanged and reports failure; a successful call commits the new state. -/
def applyTx (s : Storage) (op : Op) : Storage × Bool :=
  match applyOp s op with
  | some s2 => (s2, true)
  | none => (s, false)

/-- Run a sequence of calls; `none` as soon as one call fails. -/
def run (s : Storage) : List Op → Option Storage
  | [] => some s
  | op :: rest =>
      match applyOp s op with
      | some s2 => run s2 rest
      | none => none

/-- The record each call appends when it executes at counter value `k`:
`saveName` stores sum `0`, `saveSum` stores the empty name and the sum of
its two arguments. -/
def recordOf (k : Nat) : Op → BlockData
  | .callSaveName sender name => ⟨k, name, 0, sender⟩
  | .callSaveNameAndSum sender name sum => ⟨k, name, sum, sender⟩
  | .callSaveSum sender num1 num2 => ⟨k, "", num1 + num2, sender⟩

/-- The records appended by a call sequence starting at counter `n`. -/
def expectedBlocks : Nat → List Op → List BlockData
  | _, [] => []
  | n, op :: rest => recordOf n op :: expectedBlocks (n + 1) rest

theorem expectedBlocks_length (n : Nat) (ops : List Op) :
    (expectedBlocks n ops).length = ops.length := by
  induction ops generalizing n with
  | nil => rfl
  | cons op rest ih => simp [expectedBlocks, ih]

/-- Shape of every successful call: the new state appends exactly one
record and one matching event and increments the counter by one. -/
theorem applyOp_some (s : Storage) (op : Op) (s2 : Storage)
    (h : applyOp s op = some s2) :
    s2.blocks = s.blocks ++ [recordOf s.blockCount op] ∧
    s2.blockCount = s.blockCount + 1 ∧
    s2.events = s.events ++ [recordOf s.blockCount op] := by
  cases op with
  | callSaveName sender name =>
      simp only [applyOp, saveName] at h
      split at h
      · cases h; exact ⟨rfl, rfl, rfl⟩
      · cases h
  | callSaveNameAndSum sender name sum =>
      simp only [applyOp, saveNameAndSum] at h
      split at h
      · split at h
        · cases h; exact ⟨rfl, rfl, rfl⟩
        · cases h
      · cases h
  | callSaveSum sender num1 num2 =>
      simp only [applyOp, saveSum] at h
      split at h
      · split at h
        · cases h; exact ⟨rfl, rfl, rfl⟩
        · cases h
      · cases h

/-- Shape of every successful run: blocks and events both grow by exactly
the records of the executed calls, in order, and the counter advances by
the number of calls. -/
theorem run_some (ops : List Op) (s s' : Storage) (h : run s ops = some s') :
    s'.blocks = s.blocks ++ expectedBlocks s.blockCount ops ∧
    s'.blockCount = s.blockCount + ops.length ∧
    s'.events = s.events ++ expectedBlocks s.blockCount ops := by
  induction ops generalizing s with
  | nil =>
      simp only [run] at h
      cases h
      simp [expectedBlocks]
  | cons op rest ih =>
      simp only [run] at h
      cases hop : applyOp s op with
      | none => rw [hop] at h; cases h
      | some s2 =>
          rw [hop] at h
          obtain ⟨hb, hc, he⟩ := applyOp_some s op s2 hop
          obtain ⟨ihb, ihc, ihe⟩ := ih s2 h
          refine ⟨?_, ?_, ?_⟩
          · rw [ihb, hb, hc, expectedBlocks, List.append_assoc]
            rfl
          · rw [ihc, hc]; simp only [List.length_cons]; omega
          · rw [ihe, he, hc, expectedBlocks, List.append_assoc]
            rfl

/-- Specialisation to a run from the freshly deployed contract. -/
theorem run_empty (ops : List Op) (s : Storage)
    (h : run Storage.empty ops = some s) :
    s.blocks = expectedBlocks 0 ops ∧
    s.blockCount = ops.length ∧
    s.events = expectedBlocks 0 ops := by
  obtain ⟨hb, hc, he⟩ := run_some ops Storage.empty s h
  exact ⟨by simpa [Storage.empty] using hb, by simpa [Storage.empty] using hc,
    by simpa [Storage.empty] using he⟩

theorem expectedBlocks_getElem (ops : List Op) (n k : Nat)
    (hk : k < ops.length) :
    (expectedBlocks n ops)[k]? = some (recordOf (n + k) (ops.get ⟨k, hk⟩)) := by
  induction ops generalizing n k with
  | nil => cases hk
  | cons op rest ih =>
      cases k with
      | zero => simp [expectedBlocks]
      | succ k' =>
          have hk' : k' < rest.length := by simpa using hk
          have := ih (n + 1) k' hk'
          simp only [expectedBlocks, List.getElem?_cons_succ]
          rw [this]
          have : n + 1 + k' = n + (k' + 1) := by omega
          simp [this]

/-!
The Reconciling Indexer: `loadBlocks` in `src/pages/blocks/index.js`,
with `formatBlock` from the contract-utils module.
-/

/-- One `BlockCreated` event as returned by
`contract.queryFilter(filter, 0, "latest")`: the indexer reads
`e.args[0]` (the record id) to correlate and `e.transactionHash` to look
up the receipt; the remaining args are unused by `loadBlocks`. -/
structure ChainEvent where
  argId : Nat
  txHash : Nat
deriving Repr, DecidableEq

/-- One published entry, as built by `formatBlock(block, metadata)` in
the contract-utils module: the record's four fields plus
`ethBlockNumber` and `timestamp` from the metadata argument. -/
structure ViewEntry where
  id : Nat
  name : String
  sum : Nat
  creator : Nat
  ethBlockNumber : Nat
  timestamp : Nat
deriving Repr, DecidableEq

/-- JavaScript `formatBlock(block, metadata)`: copies the
record's fields (`Number(block.id)`, `block.name`, `Number(block.sum)`,
`block.creator` — identities for a well-typed record) and attaches the
supplied metadata. -/
def formatBlock (block : BlockData) (ethBlockNumber : Nat) (timestamp : Nat) :
    ViewEntry :=
  ⟨block.id, block.name, block.sum, block.creator, ethBlockNumber, timestamp⟩

/-- The external world one refresh of `loadBlocks` runs against.  Each
field is one remote call the indexer makes; `none` models a failed call
(a rejected promise / thrown exception) and, for `getTransactionReceipt`
and `getBlock`, also a `null` result whose field access then throws.
The environment is fixed for the duration of a refresh, so repeated
calls (the loop re-runs `queryFilter` on every iteration) see the same
answers. -/
structure Env where
  blockCountFetch : Option Nat
  getBlockFetch : Nat → Option BlockData
  eventsFetch : Option (List ChainEvent)
  receiptFetch : Nat → Option Nat
  ethBlockFetch : Nat → Option Nat

/-- Body of one iteration of the `for (let i = count - 1; i >= 0; i--)`
loop in `loadBlocks`: fetch the record (`contract.getBlock(i)`), re-fetch
the event log (`contract.queryFilter(filter, 0, "latest")`), find the
event with `Number(e.args[0]) === i`, fetch the receipt and the Ethereum
block, and build the entry with `formatBlock`.  Any thrown step is caught
by the per-item `try`/`catch` and the item is skipped (`none`); a missing
event (`find` returns `undefined`) skips the item without an error. -/
def loadBlockItem (env : Env) (i : Nat) : Option ViewEntry :=
  (env.getBlockFetch i).bind fun block =>
    env.eventsFetch.bind fun events =>
      (events.find? fun e => e.argId == i).bind fun event =>
        (env.receiptFetch event.txHash).bind fun ethBlockNumber =>
          (env.ethBlockFetch ethBlockNumber).map fun timestamp =>
            formatBlock block ethBlockNumber timestamp

/-- One refresh of `loadBlocks`, as a function from the previously
published view (the `blocks` React state) to the newly published one.
If `contract.blockCount()` fails the outer `catch` runs and `setBlocks`
is never called: the previous view stays published.  Otherwise the loop
walks ids `count - 1, ..., 0`, keeping the successfully built entries in
order, and `setBlocks(blocksData)` replaces the view with exactly that
list. -/
def loadBlocks (env : Env) (prevBlocks : List ViewEntry) : List ViewEntry :=
  match env.blockCountFetch with
  | none => prevBlocks
  | some count => ((List.range count).reverse).filterMap (loadBlockItem env)

/-- A demonstration call sequence: the three entry points once each
(scenario C of the spec's testable properties). -/
def demoOps : List Op :=
  [.callSaveName 7 "First", .callSaveNameAndSum 7 "Second" 100,
   .callSaveSum 7 50 50]

/-- The contract state after running `demoOps` from deployment. -/
def demoState : Storage :=
  { blocks := [⟨0, "First", 0, 7⟩, ⟨1, "Second", 100, 7⟩, ⟨2, "", 100, 7⟩]
    blockCount := 3
    events := [⟨0, "First", 0, 7⟩, ⟨1, "Second", 100, 7⟩, ⟨2, "", 100, 7⟩] }

/-- C1: after any sequence of N successful appends from the empty ledger,
`blockCount` is N and `getBlock k` returns the k-th appended record
unchanged, whose `id` is exactly `k` — ids are dense, strictly
increasing, without gaps or reuse. -/
theorem C1_count_and_dense_ids (ops : List Op) (s : Storage)
    (h : run Storage.empty ops = some s) :
    s.blockCount = ops.length ∧
    ∀ k, ∀ hk : k < ops.length,
      getBlock s k = some (recordOf k (ops.get ⟨k, hk⟩)) ∧
      (recordOf k (ops.get ⟨k, hk⟩)).id = k := by
  obtain ⟨hb, hc, _⟩ := run_empty ops s h
  refine ⟨hc, fun k hk => ⟨?_, ?_⟩⟩
  · unfold getBlock
    rw [hc, if_pos hk, hb]
    simpa using expectedBlocks_getElem ops 0 k hk
  · cases ops.get ⟨k, hk⟩ <;> rfl

theorem C1_count_and_dense_ids_witness :
    demoState.blockCount = demoOps.length ∧
    getBlock demoState 0 = some ⟨0, "First", 0, 7⟩ ∧
    getBlock demoState 1 = some ⟨1, "Second", 100, 7⟩ ∧
    getBlock demoState 2 = some ⟨2, "", 100, 7⟩ := by
  obtain ⟨h1, h2⟩ := C1_count_and_dense_ids demoOps demoState rfl
  exact ⟨h1, (h2 0 (by decide)).1, (h2 1 (by decide)).1, (h2 2 (by decide)).1⟩

/-- C2: on every reachable ledger state, `getBlock id` fails exactly when
`id >= blockCount`; below the counter it succeeds and returns the stored
record unchanged. -/
theorem C2_getBlock_range (ops : List Op) (s : Storage)
    (h : run Storage.empty ops = some s) (id : Nat) :
    (getBlock s id = none ↔ s.blockCount ≤ id) ∧
    (id < s.blockCount →
      ∃ bdata, s.blocks[id]? = some bdata ∧ getBlock s id = some bdata) := by
  obtain ⟨hb, hc, _⟩ := run_empty ops s h
  have hlen : s.blocks.length = s.blockCount := by
    rw [hb, hc, expectedBlocks_length]
  constructor
  · constructor
    · intro hnone
      by_contra hlt
      push_neg at hlt
      unfold getBlock at hnone
      rw [if_pos hlt] at hnone
      rw [List.getElem?_eq_getElem (by omega)] at hnone
      cases hnone
    · intro hge
      unfold getBlock
      rw [if_neg (by omega)]
  · intro hlt
    have hl : id < s.blocks.length := by omega
    refine ⟨s.blocks[id], List.getElem?_eq_getElem hl, ?_⟩
    unfold getBlock
    rw [if_pos hlt]
    exact List.getElem?_eq_getElem hl

theorem C2_getBlock_range_witness :
    getBlock demoState 3 = none ∧
    (∃ bdata, demoState.blocks[1]? = some bdata ∧
      getBlock demoState 1 = some bdata) := by
  refine ⟨?_, ?_⟩
  · exact (C2_getBlock_range demoOps demoState rfl 3).1.mpr (by decide)
  · exact (C2_getBlock_range demoOps demoState rfl 1).2 (by decide)

/-- C3: `saveName(name)` is exactly the append primitive
`saveNameAndSum` called with sum `0`, and `saveSum(a, b)` is exactly the
append primitive called with the empty name and sum `a + b` — same
resulting state (records, counter) and same emitted notification,
including the revert cases. -/
theorem C3_entry_points_route_through_append (s : Storage) (sender : Nat)
    (name : String) (a b : Nat) :
    applyOp s (.callSaveName sender name)
      = applyOp s (.callSaveNameAndSum sender name 0) ∧
    applyOp s (.callSaveSum sender a b)
      = applyOp s (.callSaveNameAndSum sender "" (a + b)) := by
  constructor
  · have h0 : (0 : Nat) < UINT256_MOD := by decide
    simp only [applyOp, if_pos h0]
    rfl
  · by_cases hab : a + b < UINT256_MOD
    · simp [applyOp, saveSum, saveNameAndSum, hab]
    · simp [applyOp, saveSum, saveNameAndSum, hab]

/-- C4: every successful append emits exactly one `BlockCreated`
notification, in append order, with the same four fields as the record
it stores — the event log and the record store coincide — and no other
operation adds to the event log (the log is exactly the appended
records). -/
theorem C4_one_notification_per_append (ops : List Op) (s : Storage)
    (h : run Storage.empty ops = some s) :
    s.events.length = ops.length ∧
    s.events = expectedBlocks 0 ops ∧
    s.events = s.blocks := by
  obtain ⟨hb, _, he⟩ := run_empty ops s h
  exact ⟨by rw [he, expectedBlocks_length], he, by rw [he, hb]⟩

theorem C4_one_notification_per_append_witness :
    demoState.events.length = demoOps.length ∧
    demoState.events = expectedBlocks 0 demoOps ∧
    demoState.events = demoState.blocks := by
  exact C4_one_notification_per_append demoOps demoState rfl

/-- A further call after `demoOps`, to exercise the frame property. -/
def laterOps : List Op := [.callSaveName 9 "Later"]

/-- The contract state after `demoOps` followed by `laterOps`. -/
def laterState : Storage :=
  { blocks := demoState.blocks ++ [⟨3, "Later", 0, 9⟩]
    blockCount := 4
    events := demoState.events ++ [⟨3, "Later", 0, 9⟩] }

/-- C9: records are immutable — any sequence of further successful calls
only appends: the old record list is a prefix of the new one, and every
already-present id still looks up to exactly the same record. -/
theorem C9_records_immutable (ops more : List Op) (s s' : Storage)
    (h1 : run Storage.empty ops = some s) (h2 : run s more = some s') :
    s'.blocks = s.blocks ++ expectedBlocks s.blockCount more ∧
    ∀ k, k < s.blockCount → getBlock s' k = getBlock s k := by
  obtain ⟨hb, hc, _⟩ := run_empty ops s h1
  obtain ⟨hb', hc', _⟩ := run_some more s s' h2
  have hlen : s.blocks.length = s.blockCount := by
    rw [hb, hc, expectedBlocks_length]
  refine ⟨hb', fun k hk => ?_⟩
  unfold getBlock
  rw [if_pos hk, if_pos (show k < s'.blockCount by omega), hb']
  rw [List.getElem?_append, if_pos (show k < s.blocks.length by omega)]

theorem C9_records_immutable_witness :
    laterState.blocks = demoState.blocks ++ expectedBlocks demoState.blockCount laterOps ∧
    getBlock laterState 1 = getBlock demoState 1 := by
  obtain ⟨h1, h2⟩ := C9_records_immutable demoOps laterOps demoState laterState rfl rfl
  exact ⟨h1, h2 1 (by decide)⟩

/-- C10: `saveSum(a, b)` with `a + b` representable in `uint256` appends
a record whose sum is the exact mathematical `a + b` (and emits the
matching notification); when `a + b` reaches `2 ^ 256` the checked
addition reverts and the transaction leaves the ledger unchanged — no
record, no counter change, no notification. -/
theorem C10_saveSum_checked_overflow (s : Storage) (sender a b : Nat) :
    (a + b < UINT256_MOD → s.blockCount + 1 < UINT256_MOD →
      applyTx s (.callSaveSum sender a b) =
        ({ blocks := s.blocks ++ [⟨s.blockCount, "", a + b, sender⟩]
           blockCount := s.blockCount + 1
           events := s.events ++ [⟨s.blockCount, "", a + b, sender⟩] }, true)) ∧
    (UINT256_MOD ≤ a + b → applyTx s (.callSaveSum sender a b) = (s, false)) := by
  constructor
  · intro h1 h2
    simp [applyTx, applyOp, saveSum, h1, h2]
  · intro h
    have hlt : ¬ a + b < UINT256_MOD := by omega
    simp [applyTx, applyOp, saveSum, hlt]

theorem C10_saveSum_checked_overflow_witness :
    applyTx Storage.empty (.callSaveSum 5 2 3) =
      ({ blocks := [⟨0, "", 5, 5⟩], blockCount := 1,
         events := [⟨0, "", 5, 5⟩] }, true) ∧
    applyTx Storage.empty (.callSaveSum 5 (UINT256_MOD - 1) 1) =
      (Storage.empty, false) := by
  constructor
  · exact (C10_saveSum_checked_overflow Storage.empty 5 2 3).1
      (by decide) (by decide)
  · exact (C10_saveSum_checked_overflow Storage.empty 5 (UINT256_MOD - 1) 1).2
      (by norm_num [UINT256_MOD])

/-- C7: one refresh reads only the environment, so running the refresh
again on an unchanged ledger, event log and metadata source republishes
the identical view — the refresh is idempotent and deterministic in its
inputs. -/
theorem C7_refresh_idempotent (env : Env) (v : List ViewEntry) :
    loadBlocks env (loadBlocks env v) = loadBlocks env v := by
  unfold loadBlocks
  cases env.blockCountFetch <;> rfl

/-- An environment whose event-log fetch (`queryFilter`) always fails but
whose `blockCount()` call succeeds. -/
def failEnv : Env :=
  { blockCountFetch := some 1
    getBlockFetch := fun i => if i = 0 then some ⟨0, "a", 1, 2⟩ else none
    eventsFetch := none
    receiptFetch := fun _ => none
    ethBlockFetch := fun _ => none }

/-- A previously published, non-empty view. -/
def prevView : List ViewEntry := [⟨0, "a", 1, 2, 10, 100⟩]

/-- C6 as stated is false: when the Notification Stream fetch fails (but
`blockCount()` succeeds) the refresh is not aborted — every per-item
`queryFilter` failure is swallowed by the per-item `try`/`catch`, the
loop completes, and `setBlocks` replaces the previously published
non-empty view with the freshly built (here empty) list. -/
theorem C6_counterexample :
    failEnv.eventsFetch = none ∧ failEnv.blockCountFetch = some 1 ∧
    loadBlocks failEnv prevView ≠ prevView := by decide

/-- An environment whose `blockCount()` call fails. -/
def countFailEnv : Env :=
  { failEnv with blockCountFetch := none }

/-- C6 amended: if the initial `blockCount()` fetch fails, the refresh
aborts in the outer catch and the previously published view is retained
unchanged; but if the Notification Stream fetch fails, the refresh is
not aborted — each entry's stream fetch failure is caught per item, so
every entry is skipped and an empty view is published, replacing the
previous one. -/
theorem C6_count_failure_retains_view (env : Env) (v : List ViewEntry)
    (n : Nat) :
    (env.blockCountFetch = none → loadBlocks env v = v) ∧
    (env.blockCountFetch = some n → env.eventsFetch = none →
      loadBlocks env v = []) := by
  constructor
  · intro h
    unfold loadBlocks
    rw [h]
  · intro hc he
    unfold loadBlocks
    rw [hc]
    apply List.filterMap_eq_nil_iff.mpr
    intro i _
    cases hg : env.getBlockFetch i <;> simp [loadBlockItem, hg, he]

theorem C6_count_failure_retains_view_witness :
    loadBlocks countFailEnv prevView = prevView ∧
    loadBlocks failEnv prevView = [] := by
  exact ⟨(C6_count_failure_retains_view countFailEnv prevView 0).1 rfl,
    (C6_count_failure_retains_view failEnv prevView 1).2 rfl rfl⟩

/-- C5: if all of the M records fetch, but exactly one record id `j` has
no matching `BlockCreated` event (its commit metadata cannot be found),
the published view is exactly the enriched entries of the other M - 1
ids, still in descending id order, and has length M - 1 — the one
correlation miss never blanks or perturbs the rest of the view. -/
theorem C5_single_correlation_miss (env : Env) (v : List ViewEntry)
    (M j : Nat) (evs : List ChainEvent) (f : Nat → BlockData)
    (ev : Nat → ChainEvent) (bn ts : Nat → Nat)
    (hj : j < M)
    (hc : env.blockCountFetch = some M)
    (hev : env.eventsFetch = some evs)
    (hf : ∀ i, i < M → env.getBlockFetch i = some (f i))
    (hfind : ∀ i, i < M → i ≠ j →
      evs.find? (fun e => e.argId == i) = some (ev i))
    (hmiss : evs.find? (fun e => e.argId == j) = none)
    (hr : ∀ i, i < M → i ≠ j → env.receiptFetch (ev i).txHash = some (bn i))
    (hb : ∀ i, i < M → i ≠ j → env.ethBlockFetch (bn i) = some (ts i)) :
    loadBlocks env v =
      (((List.range M).reverse).filter (fun i => i != j)).map
        (fun i => formatBlock (f i) (bn i) (ts i)) ∧
    (loadBlocks env v).length = M - 1 := by
  have item : ∀ i, i < M →
      loadBlockItem env i =
        if i = j then none else some (formatBlock (f i) (bn i) (ts i)) := by
    intro i hi
    by_cases hij : i = j
    · subst hij
      simp [loadBlockItem, hf i hi, hev, hmiss]
    · simp [loadBlockItem, hf i hi, hev, hfind i hi hij, hr i hi hij,
        hb i hi hij, hij]
  have key : ∀ l : List Nat, (∀ i ∈ l, i < M) →
      l.filterMap (loadBlockItem env) =
        (l.filter (fun i => i != j)).map
          (fun i => formatBlock (f i) (bn i) (ts i)) := by
    intro l
    induction l with
    | nil => intro _; rfl
    | cons a t ih =>
        intro hmem
        have ha : a < M := hmem a (List.mem_cons_self a t)
        have ht : ∀ i ∈ t, i < M := fun i hi => hmem i (List.mem_cons_of_mem a hi)
        rw [List.filterMap_cons, List.filter_cons, item a ha]
        by_cases hij : a = j
        · simp [hij, ih ht]
        · simp [hij, ih ht]
  have hmain : loadBlocks env v =
      (((List.range M).reverse).filter (fun i => i != j)).map
        (fun i => formatBlock (f i) (bn i) (ts i)) := by
    unfold loadBlocks
    rw [hc]
    refine key _ ?_
    intro i hi
    rw [List.mem_reverse] at hi
    exact List.mem_range.mp hi
  refine ⟨hmain, ?_⟩
  rw [hmain, List.length_map, List.filter_reverse, List.length_reverse]
  rw [← (List.nodup_range M).erase_eq_filter j]
  have := List.length_erase_add_one (List.mem_range.mpr hj)
  rw [List.length_range] at this
  omega

/-- An environment with two records but no `BlockCreated` event for
record id 0: its commit metadata cannot be correlated. -/
def missEnv : Env :=
  { blockCountFetch := some 2
    getBlockFetch := fun i => if i < 2 then some ⟨i, "r", i, 3⟩ else none
    eventsFetch := some [⟨1, 101⟩]
    receiptFetch := fun t => if t = 101 then some 11 else none
    ethBlockFetch := fun b => if b = 11 then some 500 else none }

theorem C5_single_correlation_miss_witness :
    loadBlocks missEnv [] = [⟨1, "r", 1, 3, 11, 500⟩] ∧
    (loadBlocks missEnv []).length = 2 - 1 := by
  obtain ⟨h1, h2⟩ := C5_single_correlation_miss missEnv [] 2 0 [⟨1, 101⟩]
    (fun i => ⟨i, "r", i, 3⟩) (fun _ => ⟨1, 101⟩) (fun _ => 11) (fun _ => 500)
    (by decide) rfl rfl (by decide) (by decide) (by decide) (by decide)
    (by decide)
  constructor
  · rw [h1]; rfl
  · exact h2

/-- Each published entry keeps the id of the record it was built from. -/
theorem loadBlockItem_id (env : Env) (i : Nat) (e : ViewEntry)
    (hid : ∀ k bdata, env.getBlockFetch k = some bdata → bdata.id = k)
    (h : loadBlockItem env i = some e) : e.id = i := by
  simp only [loadBlockItem, Option.bind_eq_some, Option.map_eq_some'] at h
  obtain ⟨block, hb, evs, _, event, _, bnum, _, ts, _, rfl⟩ := h
  exact hid i block hb

/-- C8: whenever a refresh actually publishes (the count fetch
succeeded), and the ledger answers each lookup with a record carrying
that id (as `SimpleStorage.getBlock` does), the published list is
strictly descending in record id: each entry's id exceeds the next
one's. -/
theorem C8_view_descending (env : Env) (v : List ViewEntry) (n : Nat)
    (hc : env.blockCountFetch = some n)
    (hid : ∀ k bdata, env.getBlockFetch k = some bdata → bdata.id = k) :
    List.Chain' (fun e1 e2 => e2.id < e1.id) (loadBlocks env v) := by
  have key : ∀ l : List Nat, l.Pairwise (fun a b => b < a) →
      (l.filterMap (loadBlockItem env)).Pairwise
        (fun e1 e2 => e2.id < e1.id) := by
    intro l
    induction l with
    | nil => intro _; simp
    | cons a t ih =>
        intro hl
        obtain ⟨ha, ht⟩ := List.pairwise_cons.mp hl
        rw [List.filterMap_cons]
        cases hitem : loadBlockItem env a with
        | none => exact ih ht
        | some e =>
            refine List.pairwise_cons.mpr ⟨?_, ih ht⟩
            intro e2 he2
            obtain ⟨b, hbmem, hbe⟩ := List.mem_filterMap.mp he2
            have h1 : e2.id = b := loadBlockItem_id env b e2 hid hbe
            have h2 : e.id = a := loadBlockItem_id env a e hid hitem
            have h3 : b < a := ha b hbmem
            omega
  unfold loadBlocks
  rw [hc]
  refine List.Pairwise.chain' (key _ ?_)
  exact List.pairwise_reverse.mpr (List.pairwise_lt_range n)

theorem C8_view_descending_witness :
    List.Chain' (fun e1 e2 => e2.id < e1.id) (loadBlocks missEnv []) := by
  refine C8_view_descending missEnv [] 2 rfl ?_
  intro k bdata h
  simp only [missEnv] at h
  split at h
  · cases h; rfl
  · cases h
